import Mathlib

/-!
Shallow embedding of the derrick schema-migration engine.

The embedding follows the source files:
- derrick-core/src/migrations/migrate.rs: the `Migrate` trait
  (`current_version`, `apply` dispatch, `NoValidation`).
- derrick-migrate/src/backends/sqlx/postgres.rs: the sqlx Postgres backend
  (`SqlxPgMigrate::apply_tx`, `SqlxPgMigrate::apply_no_tx`,
  `SqlxPgHistoryTable`).

Database effects are modelled explicitly: a persistent state holding the
schema effects (the ordered list of SQL statements whose effects have been
committed) and the history rows, a wall clock measured in milliseconds, and
an event trace recording every I/O action in the order it is issued.
Failure injection is an environment value saying which statements fail and
whether the history insert fails.
-/

/-- Modelled from the spec: the `MigrationSource` type lives outside src/;
the spec describes it as the declared source material of one migration
(version, description, content). Only its shape matters here: the default
validator ignores its arguments. -/
structure MigrationSource where
  version : Int
  description : String
  content : String
deriving Repr, DecidableEq

/-- Modelled from the spec: the `Migration` type lives outside src/.
Per the spec's data model it is `{version, description, statements
(ordered sequence of SQL text), transactional flag, raw content}`; the
source code reads the flag through the field `no_tx` and the whole SQL
text through the field `sql` (`migration.sql` in `apply_tx`,
`migration.statements` in `apply_no_tx`). -/
structure Migration where
  version : Int
  description : String
  sql : String
  statements : List String
  no_tx : Bool
deriving Repr, DecidableEq

/-- The result of successfully executing a migration
(version, description, content, duration_ms), as bound by the insert
queries in postgres.rs. -/
structure AppliedMigration where
  version : Int
  description : String
  content : String
  duration_ms : Int
deriving Repr, DecidableEq

/-- A history row read back from the database; structurally it mirrors
`AppliedMigration` (version, description, content, duration_ms). -/
structure ExistingMigration where
  version : Int
  description : String
  content : String
  duration_ms : Int
deriving Repr, DecidableEq

/-- Modelled from the spec: `Migration::new_applied` lives outside src/;
the spec says an Applied Migration records the version, description, the
verbatim SQL executed, and the measured duration. -/
def Migration.new_applied (m : Migration) (duration_ms : Int) : AppliedMigration :=
  { version := m.version
    description := m.description
    content := m.sql
    duration_ms := duration_ms }

/-- The history row written for an applied migration (the columns bound by
the insert query: version, description, content, duration_ms). -/
def historyRowOf (a : AppliedMigration) : ExistingMigration :=
  { version := a.version
    description := a.description
    content := a.content
    duration_ms := a.duration_ms }

/-- Modelled from the spec: the `Error` type lives outside src/. The spec's
error taxonomy distinguishes an apply error carrying the offending
migration's context (version, failing statement) — produced by
`into_error_with(migration)` in the source — from a plain database/query
error without migration context — produced by `into_error` /
`into_error_void`. -/
inductive Error where
  | execution (version : Int) (statement : String)
  | database
deriving Repr, DecidableEq

/-- Persistent database state: the committed schema effects (the ordered
list of statements whose effects have been applied) and the history rows. -/
structure DbState where
  schema : List String
  history : List ExistingMigration
deriving Repr, DecidableEq

/-- Which connection an I/O action is issued on: the shared pool or the
transactional connection acquired from an open transaction. -/
inductive Conn where
  | pool
  | tx
deriving Repr, DecidableEq

/-- One I/O action of an apply run, in issue order. -/
inductive Event where
  | txBegin
  | connAcquire
  | stmtExec (c : Conn) (s : String)
  | rowInsert (c : Conn) (version : Int)
  | txCommit
deriving Repr, DecidableEq

/-- The world an apply run threads: the persistent database state, a wall
clock in milliseconds, and the trace of issued I/O actions. -/
structure World where
  db : DbState
  clock : Nat
  trace : List Event
deriving Repr, DecidableEq

/-- Failure and cost injection for a run: which statements fail, whether
the history insert fails, and how many milliseconds each suspension point
takes. -/
structure Env where
  stmtFails : String → Bool
  insertFails : Bool
  stmtCost : String → Nat
  beginCost : Nat
  acquireCost : Nat
  insertCost : Nat
  commitCost : Nat

/-- `Migrate::current_version` (migrate.rs lines 65-79): fold over the
history rows starting from `None`, replacing the accumulator whenever a
row's version is strictly greater. -/
def current_version (rows : List ExistingMigration) : Option Int :=
  rows.foldl
    (fun acc m =>
      match acc with
      | none => some m.version
      | some v => if m.version > v then some m.version else acc)
    none

/-- `NoValidation::validate` (migrate.rs lines 106-113): ignores both
arguments and succeeds. -/
def NoValidation.validate (source : List MigrationSource)
    (applied : List ExistingMigration) : Except Error Unit :=
  Except.ok ()

/-- The default `Migrate::validate_source` (migrate.rs lines 94-99):
delegates to `NoValidation::validate`. -/
def validate_source (source : List MigrationSource)
    (history : List ExistingMigration) : Except Error Unit :=
  NoValidation.validate source history

/-- Server-side semantics of sending one SQL batch over the simple-query
protocol, as `apply_tx` does with `sqlx::raw_sql(&migration.sql)`
(postgres.rs line 176). Per the source comment (postgres.rs lines 137-143
and 173-175) a raw, non-prepared batch is the migration's statements ran
by the server one after another; the batch stops at the first failing
statement, the effects are the prefix of statements before it, and the
elapsed time is the time spent on the statements the server ran.
Returns (failing statement if any, schema after the batch, elapsed ms). -/
def execBatch (env : Env) (stmts : List String) (schema : List String) :
    Option String × List String × Nat :=
  match stmts.find? env.stmtFails with
  | some s =>
      (some s,
       schema ++ stmts.takeWhile (fun t => !env.stmtFails t),
       ((stmts.takeWhile (fun t => !env.stmtFails t)).map env.stmtCost).sum
         + env.stmtCost s)
  | none => (none, schema ++ stmts, (stmts.map env.stmtCost).sum)

/-- Reference execution following the spec's words: execute each statement
in the definition's statement sequence, one at a time and in order,
stopping at the first failure. Same result shape as `execBatch`. -/
def execSeq (env : Env) (stmts : List String) (schema : List String) :
    Option String × List String × Nat :=
  match stmts with
  | [] => (none, schema, 0)
  | s :: rest =>
      if env.stmtFails s then (some s, schema, env.stmtCost s)
      else
        let r := execSeq env rest (schema ++ [s])
        (r.1, r.2.1, env.stmtCost s + r.2.2)

/-- The statement loop of `apply_no_tx` (postgres.rs lines 145-150): each
statement is sent individually to the pool with `sqlx::raw_sql`; the first
failure is wrapped with the migration's context by `into_error_with` and
ends the loop; a successful statement's effect is immediately persistent. -/
def runPoolStmts (env : Env) (mig : Migration) :
    List String → World → Option Error × World
  | [], w => (none, w)
  | s :: rest, w =>
      let w1 : World :=
        { w with clock := w.clock + env.stmtCost s
                 trace := w.trace ++ [Event.stmtExec Conn.pool s] }
      if env.stmtFails s then
        (some (Error.execution mig.version s), w1)
      else
        runPoolStmts env mig rest
          { w1 with db := { w1.db with schema := w1.db.schema ++ [s] } }

/-- `SqlxPgMigrate::apply_no_tx` (postgres.rs lines 129-159): start the
timer, run each statement individually against the pool, stop the timer,
build the applied migration, then insert the history row as a separate
pool operation (`insert_new_applied`, whose failure is wrapped without
migration context by `into_error_void`). A failed insert leaves the
already-executed schema effects in place. -/
def apply_no_tx (env : Env) (mig : Migration) (w : World) :
    Except Error AppliedMigration × World :=
  let t0 := w.clock
  match runPoolStmts env mig mig.statements w with
  | (some e, w1) => (Except.error e, w1)
  | (none, w1) =>
      let duration_ms : Int := (w1.clock - t0 : Nat)
      let applied := mig.new_applied duration_ms
      let w2 : World :=
        { w1 with clock := w1.clock + env.insertCost
                  trace := w1.trace ++ [Event.rowInsert Conn.pool applied.version] }
      if env.insertFails then
        (Except.error Error.database, w2)
      else
        (Except.ok applied,
         { w2 with db := { w2.db with history := w2.db.history ++ [historyRowOf applied] } })

/-- `SqlxPgMigrate::apply_tx` (postgres.rs lines 161-199): begin a
transaction on the pool, acquire the transactional connection, start the
timer, send the migration's whole `sql` as one raw batch on that
connection, stop the timer, build the applied migration, insert the
history row on the same transactional connection, commit. Any failure
before the commit returns early, the open transaction is dropped and
rolled back, so the persistent database state is left exactly as it was;
only a commit publishes the batch's schema effects and the history row. -/
def apply_tx (env : Env) (mig : Migration) (w : World) :
    Except Error AppliedMigration × World :=
  let w1 : World :=
    { w with clock := w.clock + env.beginCost, trace := w.trace ++ [Event.txBegin] }
  let w2 : World :=
    { w1 with clock := w1.clock + env.acquireCost
              trace := w1.trace ++ [Event.connAcquire] }
  let t0 := w2.clock
  match execBatch env mig.statements w2.db.schema with
  | (some s, _, cost) =>
      (Except.error (Error.execution mig.version s),
       { w2 with
           clock := w2.clock + cost
           trace := w2.trace ++
             ((mig.statements.takeWhile (fun t => !env.stmtFails t) ++ [s]).map
               (Event.stmtExec Conn.tx)) })
  | (none, txSchema, cost) =>
      let w3 : World :=
        { w2 with clock := w2.clock + cost
                  trace := w2.trace ++ mig.statements.map (Event.stmtExec Conn.tx) }
      let duration_ms : Int := (w3.clock - t0 : Nat)
      let applied := mig.new_applied duration_ms
      let w4 : World :=
        { w3 with clock := w3.clock + env.insertCost
                  trace := w3.trace ++ [Event.rowInsert Conn.tx applied.version] }
      if env.insertFails then
        (Except.error Error.database, w4)
      else
        (Except.ok applied,
         { w4 with
             clock := w4.clock + env.commitCost
             trace := w4.trace ++ [Event.txCommit]
             db := { schema := txSchema
                     history := w.db.history ++ [historyRowOf applied] } })

/-- `Migrate::apply` (migrate.rs lines 82-91): dispatch on the
definition's `no_tx` flag, nothing else. -/
def Migrate.apply (env : Env) (mig : Migration) (w : World) :
    Except Error AppliedMigration × World :=
  if mig.no_tx then apply_no_tx env mig w else apply_tx env mig w

/-- Modelled from the spec: the `HistoryTableOptions` type lives outside
src/. Per the spec's design notes the history table's identity is
configuration with recognized options `{table_name: required, schema:
optional qualifier}`; `name()` reads the configured table name. -/
structure HistoryTableOptions where
  table_name : String
  schema : Option String
deriving Repr, DecidableEq

/-- `HistoryTableOptions::name()`: the configured (flat) table name. -/
def HistoryTableOptions.name (o : HistoryTableOptions) : String := o.table_name

/-- `SqlxPgHistoryTable` (postgres.rs lines 23-26): holds only the flat
table name. -/
structure SqlxPgHistoryTable where
  name : String
deriving Repr, DecidableEq

/-- Inherent `SqlxPgHistoryTable::new` (postgres.rs lines 227-229). -/
def SqlxPgHistoryTable.new (name : String) : SqlxPgHistoryTable :=
  { name := name }

/-- `HistoryTable::new` for `SqlxPgHistoryTable` (postgres.rs lines 29-31):
`Self::new(options.name())`, using only the options' name. -/
def SqlxPgHistoryTable.newFromOptions (options : HistoryTableOptions) :
    SqlxPgHistoryTable :=
  SqlxPgHistoryTable.new options.name

/-- `HistoryTable::table` for `SqlxPgHistoryTable` (postgres.rs lines
33-35): returns the stored name unchanged (`self.name.clone()`). -/
def SqlxPgHistoryTable.table (t : SqlxPgHistoryTable) : String := t.name

/-- `SqlxPgHistoryTable::insert_into_query` (postgres.rs lines 47-56): the
stored name is interpolated verbatim into the insert statement. -/
def SqlxPgHistoryTable.insert_into_query (t : SqlxPgHistoryTable) : String :=
  "\nINSERT INTO " ++ t.name
    ++ "(version, description, content, duration_ms)\n  VALUES ($1, $2, $3, $4);"

/- Concrete sample values used to exercise the model at specific inputs. -/

/-- Environment where every statement and the history insert succeed. -/
def envOkW : Env := ⟨fun _ => false, false, fun _ => 1, 3, 4, 5, 6⟩

/-- Environment where the statement "x" fails. -/
def envBoomW : Env := ⟨fun s => s == "x", false, fun _ => 1, 3, 4, 5, 6⟩

/-- Environment where statements succeed but the history insert fails. -/
def envInsW : Env := ⟨fun _ => false, true, fun _ => 1, 3, 4, 5, 6⟩

/-- A transactional two-statement migration. -/
def migTW : Migration := ⟨1, "d", "a; b", ["a", "b"], false⟩

/-- A non-transactional two-statement migration. -/
def migNW : Migration := ⟨1, "d", "a; b", ["a", "b"], true⟩

/-- A transactional migration whose second statement is "x". -/
def migBW : Migration := ⟨1, "d", "a; x", ["a", "x"], false⟩

/-- A non-transactional migration whose second statement is "x". -/
def migBNW : Migration := ⟨1, "d", "a; x", ["a", "x"], true⟩

/-- Empty initial world. -/
def w0W : World := ⟨⟨[], []⟩, 0, []⟩

/-- The applied migration produced by running `migTW`/`migNW` under
`envOkW` (two statements at one millisecond each). -/
def appliedW : AppliedMigration := ⟨1, "d", "a; b", 2⟩

/-- Sample history rows with maximum version 7. -/
def rowsW : List ExistingMigration :=
  [⟨3, "a", "s", 0⟩, ⟨7, "b", "t", 0⟩, ⟨5, "c", "u", 0⟩]

/-- A permutation of `rowsW`. -/
def rowsPermW : List ExistingMigration :=
  [⟨7, "b", "t", 0⟩, ⟨3, "a", "s", 0⟩, ⟨5, "c", "u", 0⟩]

/- Helper lemmas for `current_version`. The fold's step function is `max`
on the present values, so the result is characterised as the greatest
version among the rows. -/

def cvStep (acc : Option Int) (m : ExistingMigration) : Option Int :=
  match acc with
  | none => some m.version
  | some v => if m.version > v then some m.version else acc

lemma current_version_eq_foldl (rows : List ExistingMigration) :
    current_version rows = rows.foldl cvStep none := rfl

lemma cvStep_some (v : Int) (m : ExistingMigration) :
    cvStep (some v) m = some (max v m.version) := by
  simp only [cvStep]
  rcases le_or_lt m.version v with h | h
  · rw [if_neg (not_lt.mpr h), max_eq_left h]
  · rw [if_pos h, max_eq_right h.le]

lemma foldl_cvStep_some (rows : List ExistingMigration) (a : Int) :
    rows.foldl cvStep (some a) =
      some ((rows.map ExistingMigration.version).foldl max a) := by
  induction rows generalizing a with
  | nil => rfl
  | cons m rest ih =>
      rw [List.foldl_cons, cvStep_some, ih, List.map_cons, List.foldl_cons]

lemma le_foldl_max (a : Int) (l : List Int) : a ≤ l.foldl max a := by
  induction l generalizing a with
  | nil => exact le_refl a
  | cons x xs ih =>
      exact le_trans (le_max_left a x) (ih (max a x))

lemma foldl_max_mem (a : Int) (l : List Int) :
    l.foldl max a = a ∨ l.foldl max a ∈ l := by
  induction l generalizing a with
  | nil => exact Or.inl rfl
  | cons x xs ih =>
      rw [List.foldl_cons]
      rcases ih (max a x) with h | h
      · rcases max_choice a x with hm | hm
        · exact Or.inl (h.trans hm)
        · exact Or.inr (by rw [h, hm]; exact List.mem_cons_self x xs)
      · exact Or.inr (List.mem_cons_of_mem x h)

lemma foldl_max_ub (a : Int) (l : List Int) :
    ∀ u ∈ l, u ≤ l.foldl max a := by
  induction l generalizing a with
  | nil => intro u hu; cases hu
  | cons x xs ih =>
      intro u hu
      rw [List.foldl_cons]
      rcases List.mem_cons.mp hu with h | h
      · subst h
        exact le_trans (le_max_right a u) (le_foldl_max (max a u) xs)
      · exact ih (max a x) u h

lemma current_version_nil : current_version [] = none := rfl

lemma current_version_cons (m : ExistingMigration) (rest : List ExistingMigration) :
    current_version (m :: rest) =
      some ((rest.map ExistingMigration.version).foldl max m.version) := by
  rw [current_version_eq_foldl, List.foldl_cons]
  show rest.foldl cvStep (some m.version) = _
  exact foldl_cvStep_some rest m.version

lemma current_version_none_iff (rows : List ExistingMigration) :
    current_version rows = none ↔ rows = [] := by
  cases rows with
  | nil => simp [current_version_nil]
  | cons m rest => simp [current_version_cons]

lemma current_version_is_max (rows : List ExistingMigration) (v : Int)
    (h : current_version rows = some v) :
    v ∈ rows.map ExistingMigration.version ∧
      ∀ u ∈ rows.map ExistingMigration.version, u ≤ v := by
  cases rows with
  | nil => cases h
  | cons m rest =>
      rw [current_version_cons] at h
      have hv : v = (rest.map ExistingMigration.version).foldl max m.version :=
        (Option.some.injEq _ _ ▸ h).symm
      subst hv
      constructor
      · rcases foldl_max_mem m.version (rest.map ExistingMigration.version) with h1 | h1
        · rw [List.map_cons, h1]
          exact List.mem_cons_self _ _
        · rw [List.map_cons]
          exact List.mem_cons_of_mem _ h1
      · intro u hu
        rw [List.map_cons] at hu
        rcases List.mem_cons.mp hu with h1 | h1
        · subst h1
          exact le_foldl_max m.version (rest.map ExistingMigration.version)
        · exact foldl_max_ub m.version (rest.map ExistingMigration.version) u h1

/- Helper lemmas for the apply paths. -/

lemma runPoolStmts_ok (env : Env) (mig : Migration) (stmts : List String)
    (w : World) (hok : ∀ s ∈ stmts, env.stmtFails s = false) :
    runPoolStmts env mig stmts w =
      (none,
       { db := { schema := w.db.schema ++ stmts, history := w.db.history }
         clock := w.clock + (stmts.map env.stmtCost).sum
         trace := w.trace ++ stmts.map (Event.stmtExec Conn.pool) }) := by
  induction stmts generalizing w with
  | nil => simp [runPoolStmts]
  | cons s rest ih =>
      have hs : env.stmtFails s = false := hok s (List.mem_cons_self s rest)
      have hrest : ∀ t ∈ rest, env.stmtFails t = false :=
        fun t ht => hok t (List.mem_cons_of_mem s ht)
      simp only [runPoolStmts, hs, Bool.false_eq_true, if_false]
      rw [ih _ hrest]
      simp [List.append_assoc, Nat.add_assoc]

lemma runPoolStmts_fst_fail (env : Env) (mig : Migration) (stmts : List String)
    (w : World) (s : String) (h : stmts.find? env.stmtFails = some s) :
    (runPoolStmts env mig stmts w).1 = some (Error.execution mig.version s) := by
  induction stmts generalizing w with
  | nil => cases h
  | cons t rest ih =>
      by_cases ht : env.stmtFails t
      · rw [List.find?_cons_of_pos _ ht] at h
        have : t = s := Option.some.inj h
        subst this
        simp [runPoolStmts, ht]
      · rw [List.find?_cons_of_neg _ ht] at h
        simp only [runPoolStmts, ht, Bool.false_eq_true, if_false]
        exact ih _ h

/-- C3: for every history-row collection, `current_version` is `none`
exactly when the collection is empty, any returned value is the maximum
version among the rows, and the result is invariant under permutation of
the rows (it depends only on which rows were read, not their order). -/
theorem current_version_max (rows : List ExistingMigration) :
    (current_version rows = none ↔ rows = [])
    ∧ (∀ v, current_version rows = some v →
        v ∈ rows.map ExistingMigration.version ∧
          ∀ u ∈ rows.map ExistingMigration.version, u ≤ v)
    ∧ (∀ rows', rows.Perm rows' → current_version rows = current_version rows') := by
  refine ⟨current_version_none_iff rows, current_version_is_max rows, ?_⟩
  intro rows' hperm
  cases hr : current_version rows with
  | none =>
      have h0 : rows = [] := (current_version_none_iff rows).mp hr
      subst h0
      have h1 : rows' = [] := hperm.symm.eq_nil
      rw [h1]
      exact hr.symm
  | some v =>
      cases hr' : current_version rows' with
      | none =>
          have h1 : rows' = [] := (current_version_none_iff rows').mp hr'
          subst h1
          have h0 : rows = [] := hperm.eq_nil
          rw [h0] at hr
          cases hr
      | some v' =>
          have h1 := current_version_is_max rows v hr
          have h2 := current_version_is_max rows' v' hr'
          have hmap : (rows.map ExistingMigration.version).Perm
              (rows'.map ExistingMigration.version) := hperm.map _
          have hle : v ≤ v' := h2.2 v (hmap.mem_iff.mp h1.1)
          have hge : v' ≤ v := h1.2 v' (hmap.mem_iff.mpr h2.1)
          rw [le_antisymm hle hge]

/-- Witness for C3 at concrete rows with maximum version 7 and a concrete
permutation. -/
theorem current_version_max_witness :
    ((7 : Int) ∈ rowsW.map ExistingMigration.version ∧
      ∀ u ∈ rowsW.map ExistingMigration.version, u ≤ 7)
    ∧ current_version rowsW = current_version rowsPermW :=
  ⟨(current_version_max rowsW).2.1 7 (by decide),
   (current_version_max rowsW).2.2 rowsPermW (by decide)⟩

/-- C4: `Migrate::apply` dispatches on nothing but the definition's
transactional-mode flag: when the definition is transactional (`no_tx`
false) it is exactly `apply_tx`, otherwise exactly `apply_no_tx`, with no
further effect of its own. -/
theorem apply_dispatch (env : Env) (mig : Migration) (w : World) :
    (mig.no_tx = false → Migrate.apply env mig w = apply_tx env mig w)
    ∧ (mig.no_tx = true → Migrate.apply env mig w = apply_no_tx env mig w) := by
  constructor
  · intro h
    simp [Migrate.apply, h]
  · intro h
    simp [Migrate.apply, h]

/-- Witness for C4 at a transactional and a non-transactional migration. -/
theorem apply_dispatch_witness :
    Migrate.apply envOkW migTW w0W = apply_tx envOkW migTW w0W
    ∧ Migrate.apply envOkW migNW w0W = apply_no_tx envOkW migNW w0W :=
  ⟨(apply_dispatch envOkW migTW w0W).1 rfl,
   (apply_dispatch envOkW migNW w0W).2 rfl⟩

/-- C7: the default validator (`validate_source` via `NoValidation`)
succeeds on every declared source set and every history-row set, including
history rows with no corresponding definition. -/
theorem validate_source_default_ok (source : List MigrationSource)
    (history : List ExistingMigration) :
    validate_source source history = Except.ok () := rfl

/-- C10: the Postgres backend's history-table identity is the flat
configured name only: `HistoryTable::new` keeps exactly `options.name()`,
`table()` returns that string unchanged, the same string is interpolated
verbatim into the insert SQL, and the options' schema qualifier has no
effect. -/
theorem history_table_flat_name (options : HistoryTableOptions) :
    (SqlxPgHistoryTable.newFromOptions options).table = options.name
    ∧ (SqlxPgHistoryTable.newFromOptions options).insert_into_query
        = "\nINSERT INTO " ++ options.name
            ++ "(version, description, content, duration_ms)\n  VALUES ($1, $2, $3, $4);"
    ∧ ∀ sch : Option String,
        SqlxPgHistoryTable.newFromOptions
            { table_name := options.table_name, schema := sch }
          = SqlxPgHistoryTable.newFromOptions options :=
  ⟨rfl, rfl, fun sch => rfl⟩

/-- C1: transactional atomicity. If any statement of the migration fails,
or the history insert fails, the transactional apply returns an error and
the persistent database state — schema effects and history rows alike —
is exactly what it was before the call. -/
theorem apply_tx_atomic (env : Env) (mig : Migration) (w : World)
    (h : (∃ s ∈ mig.statements, env.stmtFails s = true) ∨ env.insertFails = true) :
    (∃ e, (apply_tx env mig w).1 = Except.error e)
    ∧ ((apply_tx env mig w).2).db = w.db := by
  cases hfind : mig.statements.find? env.stmtFails with
  | some s =>
      refine ⟨⟨Error.execution mig.version s, ?_⟩, ?_⟩ <;>
        simp [apply_tx, execBatch, hfind]
  | none =>
      have hins : env.insertFails = true := by
        rcases h with ⟨s, hs, hfail⟩ | hins
        · have hnone := List.find?_eq_none.mp hfind s hs
          exact absurd hfail hnone
        · exact hins
      refine ⟨⟨Error.database, ?_⟩, ?_⟩ <;>
        simp [apply_tx, execBatch, hfind, hins]

/-- Witness for C1: a transactional migration whose second statement
fails leaves the empty database unchanged. -/
theorem apply_tx_atomic_witness :
    (∃ e, (apply_tx envBoomW migBW w0W).1 = Except.error e)
    ∧ ((apply_tx envBoomW migBW w0W).2).db = w0W.db :=
  apply_tx_atomic envBoomW migBW w0W (Or.inl ⟨"x", by decide, by decide⟩)

/-- C5: the transactional path's batch execution of the whole SQL text
coincides, as a function of environment, statement sequence and schema,
with the reference execution that runs the statement sequence one
statement at a time, in order. -/
theorem apply_tx_batch_refines_seq (env : Env) (stmts schema : List String) :
    execBatch env stmts schema = execSeq env stmts schema := by
  induction stmts generalizing schema with
  | nil => simp [execBatch, execSeq]
  | cons s rest ih =>
      by_cases hs : env.stmtFails s
      · simp [execBatch, execSeq, List.find?_cons_of_pos _ hs, hs]
      · rw [execSeq]
        simp only [hs, Bool.false_eq_true, if_false]
        rw [← ih (schema ++ [s])]
        cases hfind : rest.find? env.stmtFails with
        | some t =>
            simp [execBatch, List.find?_cons_of_neg _ hs, hfind, hs,
              List.append_assoc, Nat.add_assoc]
        | none =>
            simp [execBatch, List.find?_cons_of_neg _ hs, hfind, hs,
              List.append_assoc]

/-- C2: the non-transactional inconsistency window. When every statement
succeeds but the separate history insert fails, `apply_no_tx` returns an
error, the schema effects of all statements remain applied, no history row
is added, `current_version` is unchanged, and the trace shows each
statement executed individually on the pool, in declaration order,
followed by the history insert as a separate pool operation. -/
theorem apply_no_tx_insert_window (env : Env) (mig : Migration) (w : World)
    (hok : ∀ s ∈ mig.statements, env.stmtFails s = false)
    (hins : env.insertFails = true) :
    (apply_no_tx env mig w).1 = Except.error Error.database
    ∧ ((apply_no_tx env mig w).2).db.schema = w.db.schema ++ mig.statements
    ∧ ((apply_no_tx env mig w).2).db.history = w.db.history
    ∧ current_version ((apply_no_tx env mig w).2).db.history
        = current_version w.db.history
    ∧ ((apply_no_tx env mig w).2).trace
        = w.trace ++ mig.statements.map (Event.stmtExec Conn.pool)
            ++ [Event.rowInsert Conn.pool mig.version] := by
  have hrun := runPoolStmts_ok env mig mig.statements w hok
  refine ⟨?_, ?_, ?_, ?_, ?_⟩ <;>
    simp [apply_no_tx, hrun, hins, Migration.new_applied]

/-- Witness for C2: both statements succeed, the insert fails, and the
empty database keeps the two schema effects but no history row. -/
theorem apply_no_tx_insert_window_witness :
    (apply_no_tx envInsW migNW w0W).1 = Except.error Error.database
    ∧ ((apply_no_tx envInsW migNW w0W).2).db.schema
        = w0W.db.schema ++ migNW.statements
    ∧ ((apply_no_tx envInsW migNW w0W).2).db.history = w0W.db.history
    ∧ current_version ((apply_no_tx envInsW migNW w0W).2).db.history
        = current_version w0W.db.history
    ∧ ((apply_no_tx envInsW migNW w0W).2).trace
        = w0W.trace ++ migNW.statements.map (Event.stmtExec Conn.pool)
            ++ [Event.rowInsert Conn.pool migNW.version] :=
  apply_no_tx_insert_window envInsW migNW w0W (by decide) rfl

/-- C6: in every successful transactional apply, the emitted trace is the
begin and acquire, then every statement on the transactional connection,
then the history insert on that same connection, then the commit; in
particular the insert (absent from the prefix) is strictly after all
statements and strictly before the commit. -/
theorem apply_tx_insert_order (env : Env) (mig : Migration) (w : World)
    (a : AppliedMigration) (h : (apply_tx env mig w).1 = Except.ok a) :
    ∃ pre,
      ((apply_tx env mig w).2).trace
          = w.trace ++ pre ++ [Event.rowInsert Conn.tx mig.version, Event.txCommit]
      ∧ pre = [Event.txBegin, Event.connAcquire]
          ++ mig.statements.map (Event.stmtExec Conn.tx)
      ∧ Event.rowInsert Conn.tx mig.version ∉ pre := by
  cases hfind : mig.statements.find? env.stmtFails with
  | some s => simp [apply_tx, execBatch, hfind] at h
  | none =>
      cases hins : env.insertFails with
      | true => simp [apply_tx, execBatch, hfind, hins] at h
      | false =>
          refine ⟨[Event.txBegin, Event.connAcquire]
              ++ mig.statements.map (Event.stmtExec Conn.tx), ?_, rfl, ?_⟩
          · simp [apply_tx, execBatch, hfind, hins, Migration.new_applied,
              List.append_assoc]
          · simp

/-- Witness for C6 at a concrete successful transactional run. -/
theorem apply_tx_insert_order_witness :
    ∃ pre,
      ((apply_tx envOkW migTW w0W).2).trace
          = w0W.trace ++ pre
              ++ [Event.rowInsert Conn.tx migTW.version, Event.txCommit]
      ∧ pre = [Event.txBegin, Event.connAcquire]
          ++ migTW.statements.map (Event.stmtExec Conn.tx)
      ∧ Event.rowInsert Conn.tx migTW.version ∉ pre :=
  apply_tx_insert_order envOkW migTW w0W appliedW rfl

/-- C8: error phase identification. A failing statement surfaces, on both
paths, the error constructor carrying the offending migration's version
and the failing statement; in the non-transactional path a history-insert
failure after successful statements surfaces the context-free database
error, a constructor distinct from every statement-failure error, so the
caller can tell which phase failed. -/
theorem apply_error_context :
    (∀ (env : Env) (mig : Migration) (w : World) (s : String),
        mig.statements.find? env.stmtFails = some s →
          (apply_no_tx env mig w).1
            = Except.error (Error.execution mig.version s))
    ∧ (∀ (env : Env) (mig : Migration) (w : World) (s : String),
        mig.statements.find? env.stmtFails = some s →
          (apply_tx env mig w).1
            = Except.error (Error.execution mig.version s))
    ∧ (∀ (env : Env) (mig : Migration) (w : World),
        (∀ s ∈ mig.statements, env.stmtFails s = false) →
          env.insertFails = true →
            (apply_no_tx env mig w).1 = Except.error Error.database)
    ∧ (∀ (v : Int) (st : String), Error.database ≠ Error.execution v st) := by
  refine ⟨?_, ?_, ?_, ?_⟩
  · intro env mig w s hfind
    have hfst := runPoolStmts_fst_fail env mig mig.statements w s hfind
    cases hrun : runPoolStmts env mig mig.statements w with
    | mk fst snd =>
        rw [hrun] at hfst
        have hfst2 : fst = some (Error.execution mig.version s) := hfst
        subst hfst2
        simp [apply_no_tx, hrun]
  · intro env mig w s hfind
    simp [apply_tx, execBatch, hfind]
  · intro env mig w hok hins
    simp [apply_no_tx, runPoolStmts_ok env mig mig.statements w hok, hins]
  · intro v st hcontra
    exact Error.noConfusion hcontra

/-- Witness for C8 at concrete failing runs of each phase. -/
theorem apply_error_context_witness :
    (apply_no_tx envBoomW migBNW w0W).1
        = Except.error (Error.execution migBNW.version "x")
    ∧ (apply_tx envBoomW migBW w0W).1
        = Except.error (Error.execution migBW.version "x")
    ∧ (apply_no_tx envInsW migNW w0W).1 = Except.error Error.database
    ∧ Error.database ≠ Error.execution 1 "a" :=
  ⟨apply_error_context.1 envBoomW migBNW w0W "x" (by decide),
   apply_error_context.2.1 envBoomW migBW w0W "x" (by decide),
   apply_error_context.2.2.1 envInsW migNW w0W (by decide) rfl,
   apply_error_context.2.2.2 1 "a"⟩


lemma runPoolStmts_none_clock (env : Env) (mig : Migration)
    (stmts : List String) (w : World)
    (h : (runPoolStmts env mig stmts w).1 = none) :
    ((runPoolStmts env mig stmts w).2).clock
      = w.clock + (stmts.map env.stmtCost).sum := by
  induction stmts generalizing w with
  | nil => simp [runPoolStmts]
  | cons s rest ih =>
      by_cases hs : env.stmtFails s
      · simp [runPoolStmts, hs] at h
      · simp only [runPoolStmts, hs, Bool.false_eq_true, if_false] at h ⊢
        rw [ih _ h]
        simp [Nat.add_assoc]

/-- C9: the recorded duration of a successful apply, on either path,
equals the summed execution time of the migration's statements alone: the
begin, acquire, insert and commit costs never enter it. -/
theorem apply_duration_execution_only (env : Env) (mig : Migration)
    (w : World) (a : AppliedMigration) :
    ((apply_tx env mig w).1 = Except.ok a →
      a.duration_ms = ((mig.statements.map env.stmtCost).sum : Int))
    ∧ ((apply_no_tx env mig w).1 = Except.ok a →
      a.duration_ms = ((mig.statements.map env.stmtCost).sum : Int)) := by
  constructor
  · intro h
    cases hfind : mig.statements.find? env.stmtFails with
    | some s => simp [apply_tx, execBatch, hfind] at h
    | none =>
        cases hins : env.insertFails with
        | true => simp [apply_tx, execBatch, hfind, hins] at h
        | false =>
            simp [apply_tx, execBatch, hfind, hins] at h
            rw [← h]
            simp [Migration.new_applied, Nat.add_sub_cancel_left]
  · intro h
    cases hrun : runPoolStmts env mig mig.statements w with
    | mk fst snd =>
        cases fst with
        | some e => simp [apply_no_tx, hrun] at h
        | none =>
            cases hins : env.insertFails with
            | true => simp [apply_no_tx, hrun, hins] at h
            | false =>
                have hclock : snd.clock
                    = w.clock + (mig.statements.map env.stmtCost).sum := by
                  have hc := runPoolStmts_none_clock env mig mig.statements w
                    (by rw [hrun])
                  rw [hrun] at hc
                  exact hc
                simp [apply_no_tx, hrun, hins] at h
                rw [← h]
                simp [Migration.new_applied, hclock, Nat.add_sub_cancel_left]

/-- Witness for C9: both paths record a 2 ms duration for two statements
costing 1 ms each, under nonzero begin, acquire, insert and commit costs. -/
theorem apply_duration_execution_only_witness :
    appliedW.duration_ms = ((migTW.statements.map envOkW.stmtCost).sum : Int)
    ∧ appliedW.duration_ms = ((migNW.statements.map envOkW.stmtCost).sum : Int) :=
  ⟨(apply_duration_execution_only envOkW migTW w0W appliedW).1 rfl,
   (apply_duration_execution_only envOkW migNW w0W appliedW).2 rfl⟩
